import Mathlib

/-!
Axios-Retry-Attempt, `src/utils.js`.

A shallow embedding of the three functions of `src/utils.js`
(`isRetryable`, `wait`, `retry`) together with the fragment of JavaScript
they run on: dynamically typed values, property reads that raise a
`TypeError` on `undefined`/`null`, truthiness, short-circuit `&&`, `!!`,
strict equality with a number literal, promise construction and the host
timer queue.
-/

namespace AxiosRetry

/-! ## Values -/

/-- JavaScript values read by the program: the primitives and plain objects.
Numbers are the integers together with `NaN`; an object is its list of own
data properties, the first binding of a name being the one a read finds. -/
inductive JSVal where
  | undefined
  | null
  | bool (b : Bool)
  | num (n : Int)
  | nan
  | str (s : String)
  | obj (fields : List (String × JSVal))

/-- An abrupt completion: the engine's `TypeError`, or a value raised by a
`throw` statement. -/
inductive Abrupt where
  | typeError
  | value (v : JSVal)

/-- Result of evaluating an expression or a call: a value, or a raise. -/
abbrev Outcome := Except Abrupt JSVal

/-- Truthiness (`ToBoolean`): `undefined`, `null`, `false`, `0`, `NaN` and the
empty string are falsy, everything else (every object included) is truthy. -/
def toBoolean : JSVal → Bool
  | .undefined => false
  | .null => false
  | .bool b => b
  | .num n => n != 0
  | .nan => false
  | .str s => s != ""
  | .obj _ => true

/-- Own-property lookup by exact name. -/
def lookup (k : String) : List (String × JSVal) → Option JSVal
  | [] => none
  | (k', v) :: rest => if k' = k then some v else lookup k rest

/-- Property read `v.k` / `v[k]`. Reading a property of `undefined` or `null`
raises a `TypeError`; a name that is absent reads as `undefined`. The names the
program reads (`response`, `status`, `headers`, `retry-after`, `config`) are
not properties of any built-in prototype, so a primitive reads as `undefined`. -/
def getProp (v : JSVal) (k : String) : Outcome :=
  match v with
  | .undefined => .error .typeError
  | .null => .error .typeError
  | .obj fields =>
    match lookup k fields with
    | some x => .ok x
    | none => .ok .undefined
  | _ => .ok .undefined

/-- Strict equality `v === n` against a number literal: true only for the
number `n` itself (no coercion of strings). -/
def strictEqNum (v : JSVal) (n : Int) : Bool :=
  match v with
  | .num m => m == n
  | _ => false

/-- Short-circuit conjunction `l && r`: the value of `l` when it is falsy,
otherwise the value of `r`, which is evaluated only then. -/
def logicalAnd (l : Outcome) (r : Unit → Outcome) : Outcome :=
  match l with
  | .error a => .error a
  | .ok a => if toBoolean a then r () else .ok a

/-! ## `isRetryable` -/

/-- Source: `isRetryable (error)`, `src/utils.js` lines 1-10:
`!!(error.response && error.response.status === 429 &&
    error.response.headers['retry-after'])`. -/
def isRetryable (error : JSVal) : Outcome :=
  match
    logicalAnd
      (logicalAnd
        (getProp error "response")
        (fun _ =>
          match getProp error "response" with
          | .error a => .error a
          | .ok response =>
            match getProp response "status" with
            | .error a => .error a
            | .ok status => .ok (.bool (strictEqNum status 429))))
      (fun _ =>
        match getProp error "response" with
        | .error a => .error a
        | .ok response =>
          match getProp response "headers" with
          | .error a => .error a
          | .ok headers => getProp headers "retry-after")
  with
  | .error a => .error a
  | .ok v => .ok (.bool (toBoolean v))

/-! ## `wait` -/

/-- State of a promise. -/
inductive PromiseState where
  | pending
  | fulfilled (v : JSVal)
  | rejected (a : Abrupt)

/-- A timer registered with the host by `setTimeout(callback, delay)`: the
callback is the `resolve` function of the promise `resolves`, and `delay` is
the second argument exactly as the program passed it. -/
structure Timer where
  resolves : Nat
  delay : JSVal

/-- The host environment as far as `wait` touches it: the promises created so
far (a promise is named by its index) and the timers registered so far, in
order of registration. -/
structure Host where
  promises : List PromiseState
  timers : List Timer

/-- Source: `wait (error)`, `src/utils.js` lines 12-16:
`new Promise(resolve => setTimeout(resolve, error.response.headers['retry-after']))`.
The constructor allocates a pending promise and runs the executor at once. The
executor evaluates the arguments of `setTimeout`; a raise inside the executor
is caught by the constructor and rejects the promise, otherwise one timer is
registered. The call returns the new promise. -/
def wait (error : JSVal) (h : Host) : Nat × Host :=
  let p := h.promises.length
  let delayArg : Outcome :=
    match getProp error "response" with
    | .error a => .error a
    | .ok response =>
      match getProp response "headers" with
      | .error a => .error a
      | .ok headers => getProp headers "retry-after"
  match delayArg with
  | .error a => (p, { promises := h.promises ++ [.rejected a], timers := h.timers })
  | .ok d => (p, { promises := h.promises ++ [.pending],
                   timers := h.timers ++ [{ resolves := p, delay := d }] })

/-! ## `retry` -/

/-- The injected client callable: it receives the list of call arguments and
the state of the outside world, and yields its outcome (a returned value or
its own raise) and the new state of the world. -/
abbrev Client (σ : Type) := List JSVal → σ → Outcome × σ

/-- Source: `retry (axios, error)`, `src/utils.js` lines 18-24:
`if (!error.config) { throw error } else { return axios(error.config) }`. -/
def retry {σ : Type} (axios : Client σ) (error : JSVal) (s : σ) : Outcome × σ :=
  match getProp error "config" with
  | .error a => (.error a, s)
  | .ok c =>
    if !toBoolean c then (.error (.value error), s)
    else
      match getProp error "config" with
      | .error a => (.error a, s)
      | .ok config => axios [config] s

/-- A client instrumented with a call log: every invocation appends its
argument list to the log and then runs the client. -/
def traced {σ : Type} (axios : Client σ) : Client (List (List JSVal) × σ) :=
  fun args st =>
    let r := axios args st.2
    (r.1, (st.1 ++ [args], r.2))

/-! ## Spec-side vocabulary -/

/-- Lower-casing of an ASCII letter, other characters unchanged. -/
def lowerChar (c : Char) : Char :=
  if 65 ≤ c.toNat ∧ c.toNat ≤ 90 then Char.ofNat (c.toNat + 32) else c

/-- Equality of header names ignoring letter case. -/
def eqIgnoreCase (a b : String) : Bool :=
  a.data.map lowerChar == b.data.map lowerChar

/-- Header lookup ignoring letter case, as the specification words it. -/
def lookupIgnoreCase (k : String) : List (String × JSVal) → Option JSVal
  | [] => none
  | (k', v) :: rest => if eqIgnoreCase k' k then some v else lookupIgnoreCase k rest

/-- The error of the test suite: an object with a message and the given
further fields. -/
def mkError (message : String) (fields : List (String × JSVal)) : JSVal :=
  .obj (("message", .str message) :: fields)

/-- Whether a value is `undefined` or `null`. -/
def isNullish : JSVal → Bool
  | .undefined => true
  | .null => true
  | _ => false

/-! ## The host timer queue over time -/

/-- A timer in the host queue: the callback (`some p` is the `resolve`
function of promise `p`, `none` a callback of other code), the delay argument
as passed, the earliest time at which the host may run it, and whether the host
has run it. -/
structure Entry where
  callback : Option Nat
  delay : JSVal
  due : Nat
  fired : Bool

/-- The event loop: the promises, the timer queue in order of registration,
and the clock. -/
structure Loop where
  promises : List PromiseState
  queue : List Entry
  now : Nat

/-- What can happen next: one unit of time passes, the program calls
`wait(error)`, other code registers a timer with `setTimeout`, or the host runs
the timer of the given index. -/
inductive Event where
  | tick
  | callWait (error : JSVal)
  | setTimer (delay : JSVal)
  | fire (i : Nat)

/-- A reading of the delay argument as a number of time units: a number is
read as itself (a negative one as 0), any other value as 0. The loop takes the
reading as a parameter `dl`; this one serves in the examples. -/
def delayUnits : JSVal → Nat
  | .num n => n.toNat
  | _ => 0

/-- Entry of the host queue for a timer registered at time `now`. -/
def register (dl : JSVal → Nat) (now : Nat) (t : Timer) : Entry :=
  { callback := some t.resolves, delay := t.delay, due := now + dl t.delay, fired := false }

/-- The program calls `wait(error)` at the current time: the source function
runs on the promises of the loop, and the timers it hands to the host enter the
queue, stamped with the current time. -/
def callWait (dl : JSVal → Nat) (error : JSVal) (L : Loop) : Nat × Loop :=
  let r := wait error { promises := L.promises, timers := [] }
  (r.1, { promises := r.2.promises,
          queue := L.queue ++ r.2.timers.map (register dl L.now),
          now := L.now })

/-- Modelled from the spec: the scheduler behind `setTimeout` belongs to the
host, not to this repository, and follows the timer model the specification
assumes, a callback scheduled with delay `d` runs no earlier than `d` time units
after scheduling. The host may run timer `i` when it is in the queue, has not
run, its time has come, and no timer that has not run is due earlier, or due at
the same time and registered earlier. -/
def canFire (L : Loop) (i : Nat) : Bool :=
  match L.queue[i]? with
  | none => false
  | some e =>
    !e.fired && decide (e.due ≤ L.now) &&
      (List.range L.queue.length).all fun j =>
        match L.queue[j]? with
        | none => true
        | some f =>
          f.fired || decide (e.due < f.due) || (decide (e.due = f.due) && decide (i ≤ j))

/-- Calling the `resolve` function of promise `p` with value `v`: a pending
promise becomes fulfilled, a settled one is left as it is. -/
def settle (ps : List PromiseState) (p : Nat) (v : JSVal) : List PromiseState :=
  match ps[p]? with
  | some .pending => ps.set p (.fulfilled v)
  | _ => ps

/-- The host runs timer `i`: the callback is called with no argument, so a
`resolve` callback fulfils its promise with `undefined`. -/
def fire (L : Loop) (i : Nat) : Loop :=
  match L.queue[i]? with
  | none => L
  | some e =>
    { promises :=
        match e.callback with
        | some p => settle L.promises p .undefined
        | none => L.promises,
      queue := L.queue.set i { e with fired := true },
      now := L.now }

/-- One event; `none` when the host is not allowed to run the timer. -/
def step (dl : JSVal → Nat) (L : Loop) : Event → Option Loop
  | .tick => some { L with now := L.now + 1 }
  | .callWait e => some (callWait dl e L).2
  | .setTimer d =>
    some { L with queue := L.queue ++
      [{ callback := none, delay := d, due := L.now + dl d, fired := false }] }
  | .fire i => if canFire L i then some (fire L i) else none

/-- A run: a sequence of events from a state of the loop. -/
def run (dl : JSVal → Nat) : Loop → List Event → Option Loop
  | L, [] => some L
  | L, ev :: evs =>
    match step dl L ev with
    | none => none
    | some L' => run dl L' evs

/-- The loop at start: no promise, no timer, time 0. -/
def Loop.start : Loop := { promises := [], queue := [], now := 0 }

/-- Whether a promise is pending. -/
def PromiseState.isPending : PromiseState → Bool
  | .pending => true
  | _ => false

/-- Whether a promise is fulfilled with `undefined`. -/
def PromiseState.isFulfilledUndefined : PromiseState → Bool
  | .fulfilled .undefined => true
  | _ => false

/-- Number of timers in the queue that the host has not run yet. -/
def unfired (L : Loop) : Nat :=
  L.queue.countP (fun f => !f.fired)

/-- What holds of every state the loop can reach: a `resolve` callback in the
queue belongs to a promise that exists, and a timer that has run was due. -/
structure Sound (L : Loop) : Prop where
  callbacks : ∀ (j : Nat) (f : Entry) (q : Nat), L.queue[j]? = some f → f.callback = some q → q < L.promises.length
  firedDue : ∀ (j : Nat) (f : Entry), L.queue[j]? = some f → f.fired = true → f.due ≤ L.now

/-- What holds, from a call of `wait` on, of the promise `p` it returned and
of the timer it registered, which is entry `k` of the queue and is due at time
`d`: the timer is the only one that resolves `p`; `p` is pending while the
timer has not run, and fulfilled with `undefined`, no earlier than `d`, once it
has; and every timer due later than `d` that has run found `p` fulfilled. -/
structure Tracks (p k d : Nat) (L : Loop) : Prop where
  promise : p < L.promises.length
  entry : ∃ fk, L.queue[k]? = some fk ∧ fk.callback = some p ∧ fk.due = d
  only : ∀ (j : Nat) (f : Entry), L.queue[j]? = some f → f.callback = some p → j = k
  state :
    (L.promises[p]? = some .pending ∧ ∀ fk, L.queue[k]? = some fk → fk.fired = false) ∨
    (L.promises[p]? = some (.fulfilled .undefined) ∧
      (∀ fk, L.queue[k]? = some fk → fk.fired = true) ∧ d ≤ L.now)
  later : ∀ (j : Nat) (f : Entry), L.queue[j]? = some f → f.fired = true → d < f.due →
    L.promises[p]? = some (.fulfilled .undefined)

/-! ## Shared lemmas -/

theorem isRetryable_unfold (e r : JSVal) (h : getProp e "response" = .ok r) :
    isRetryable e =
      if toBoolean r then
        match getProp r "status" with
        | .error a => .error a
        | .ok s =>
          if strictEqNum s 429 then
            match getProp r "headers" with
            | .error a => .error a
            | .ok hd =>
              match getProp hd "retry-after" with
              | .error a => .error a
              | .ok v => .ok (.bool (toBoolean v))
          else .ok (.bool false)
      else .ok (.bool false) := by
  simp only [isRetryable, logicalAnd, h]
  cases hr : toBoolean r
  · simp [hr]
  · cases hs : getProp r "status" with
    | error a => simp
    | ok s =>
      cases h9 : strictEqNum s 429
      · simp [toBoolean, h9]
      · cases hh : getProp r "headers" with
        | error a => simp [toBoolean, h9]
        | ok hd =>
          cases hv : getProp hd "retry-after" <;> simp [toBoolean, h9, hv]

theorem isRetryable_response_error (e : JSVal) (a : Abrupt)
    (h : getProp e "response" = .error a) : isRetryable e = .error a := by
  simp [isRetryable, logicalAnd, h]

theorem strictEqNum_iff (s : JSVal) (n : Int) : strictEqNum s n = true ↔ s = .num n := by
  cases s <;> simp [strictEqNum]

theorem getProp_defined_obj (r v : JSVal) (k : String) (h : getProp r k = .ok v)
    (hv : v ≠ .undefined) : ∃ fs, r = .obj fs := by
  cases r <;> simp_all [getProp]

theorem getProp_not_nullish (r : JSVal) (k : String) (h : isNullish r = false) :
    ∃ v, getProp r k = .ok v := by
  cases r <;> simp_all [getProp, isNullish]
  split <;> simp

theorem toBoolean_true_not_nullish (r : JSVal) (h : toBoolean r = true) :
    isNullish r = false := by
  cases r <;> simp_all [toBoolean, isNullish]

/-! ## Claims about `isRetryable` -/

/-- C1: `isRetryable(error)` returns `true` exactly when the error carries a
response, the status of the response is the number 429, and the header mapping
of the response has a `retry-after` entry with a truthy value; every other
value it returns is the boolean `false`; and on the error with status 429 and
headers `{'retry-after': 25}` it returns `true`. -/
theorem isRetryable_true_iff :
    (∀ e : JSVal,
      (isRetryable e = .ok (.bool true) ↔
        ∃ r hd v, getProp e "response" = .ok r ∧ getProp r "status" = .ok (.num 429) ∧
          getProp r "headers" = .ok hd ∧ getProp hd "retry-after" = .ok v ∧
          toBoolean v = true) ∧
      (∀ x, isRetryable e = .ok x → x ≠ .bool true → x = .bool false)) ∧
    isRetryable (mkError "HTTP 429 Rate Limit Exceeded"
      [("response", .obj [("status", .num 429),
        ("headers", .obj [("retry-after", .num 25)])])]) = .ok (.bool true) := by
  refine ⟨fun e => ⟨⟨?_, ?_⟩, ?_⟩, rfl⟩
  · intro h
    cases hr : getProp e "response" with
    | error a => rw [isRetryable_response_error e a hr] at h; cases h
    | ok r =>
      rw [isRetryable_unfold e r hr] at h
      cases hb : toBoolean r
      · simp [hb] at h
      · simp only [hb, if_true] at h
        cases hs : getProp r "status" with
        | error a => simp [hs] at h
        | ok s =>
          simp only [hs] at h
          cases h9 : strictEqNum s 429
          · simp [h9] at h
          · simp only [h9, if_true] at h
            cases hh : getProp r "headers" with
            | error a => simp [hh] at h
            | ok hd =>
              simp only [hh] at h
              cases hv : getProp hd "retry-after" with
              | error a => simp [hv] at h
              | ok v =>
                simp only [hv, Except.ok.injEq, JSVal.bool.injEq] at h
                have h429 : s = .num 429 := (strictEqNum_iff s 429).1 h9
                exact ⟨r, hd, v, rfl, h429 ▸ hs, hh, hv, h⟩
  · rintro ⟨r, hd, v, hr, hs, hh, hv, ht⟩
    obtain ⟨fs, rfl⟩ := getProp_defined_obj r _ "status" hs (by simp)
    rw [isRetryable_unfold e _ hr]
    have hb : toBoolean (.obj fs) = true := rfl
    simp [hb, hs, hh, hv, strictEqNum, ht]
  · intro x hx hne
    cases hr : getProp e "response" with
    | error a => rw [isRetryable_response_error e a hr] at hx; cases hx
    | ok r =>
      simp only [isRetryable] at hx
      split at hx
      · cases hx
      · rename_i v _
        simp only [Except.ok.injEq] at hx
        subst hx
        cases hb : toBoolean v
        · rfl
        · exact absurd (by rw [hb]) hne

/-- C2 (as stated, refuted): `isRetryable` raises a `TypeError` on an absent
error (`undefined` and `null`) and on an error whose response has status 429
but no `headers` property. -/
theorem isRetryable_raises_on_absent :
    isRetryable .undefined = .error .typeError ∧
    isRetryable .null = .error .typeError ∧
    isRetryable (mkError "HTTP 429 Rate Limit Exceeded"
      [("response", .obj [("status", .num 429)])]) = .error .typeError :=
  ⟨rfl, rfl, rfl⟩

/-- C2 (amended): for every error that is neither `undefined` nor `null`, and
whose response, when its status is 429, has a `headers` value that is neither
`undefined` nor `null`, `isRetryable` returns a boolean and does not raise; a
missing response and a missing `headers` on a response of another status are
tolerated. -/
theorem isRetryable_returns_boolean (e : JSVal) (he : isNullish e = false)
    (hh : ∀ r hd, getProp e "response" = .ok r → getProp r "status" = .ok (.num 429) →
      getProp r "headers" = .ok hd → isNullish hd = false) :
    ∃ b, isRetryable e = .ok (.bool b) := by
  obtain ⟨r, hr⟩ := getProp_not_nullish e "response" he
  rw [isRetryable_unfold e r hr]
  cases hb : toBoolean r
  · exact ⟨false, by simp⟩
  · obtain ⟨s, hs⟩ := getProp_not_nullish r "status" (toBoolean_true_not_nullish r hb)
    obtain ⟨hd, hhd⟩ := getProp_not_nullish r "headers" (toBoolean_true_not_nullish r hb)
    cases h9 : strictEqNum s 429
    · exact ⟨false, by simp [hs, h9]⟩
    · have h429 : s = .num 429 := (strictEqNum_iff s 429).1 h9
      obtain ⟨v, hv⟩ := getProp_not_nullish hd "retry-after" (hh r hd hr (h429 ▸ hs) hhd)
      exact ⟨toBoolean v, by simp [hs, h9, hhd, hv]⟩

/-- Witness for C2 (amended): a request error (no response) and a response of
status 400 without headers both satisfy the hypotheses. -/
theorem isRetryable_returns_boolean_witness :
    isNullish (mkError "Request error" [("config", .obj []), ("request", .obj [])]) = false ∧
    (∃ b, isRetryable (mkError "Request error" [("config", .obj []), ("request", .obj [])])
      = .ok (.bool b)) ∧
    (∃ b, isRetryable (mkError "HTTP 400 Bad Request" [("response", .obj [("status", .num 400)])])
      = .ok (.bool b)) :=
  ⟨rfl,
   isRetryable_returns_boolean _ rfl (by
      intro r hd h1 h2 h3
      simp [mkError, getProp, lookup] at h1
      subst h1
      simp [getProp] at h2),
   isRetryable_returns_boolean _ rfl (by
      intro r hd h1 h2 h3
      simp [mkError, getProp, lookup] at h1
      subst h1
      simp [getProp, lookup] at h2)⟩

/-- C3 (as stated, refuted): with status 429 and the single header
`Retry-After: 25` (or `RETRY-AFTER: 25`), a lookup ignoring letter case finds
the truthy value 25, yet `isRetryable` returns `false`. -/
theorem isRetryable_header_name_case_sensitive :
    lookupIgnoreCase "retry-after" [("Retry-After", .num 25)] = some (.num 25) ∧
    lookupIgnoreCase "retry-after" [("RETRY-AFTER", .num 25)] = some (.num 25) ∧
    toBoolean (.num 25) = true ∧
    isRetryable (mkError "HTTP 429 Rate Limit Exceeded"
      [("response", .obj [("status", .num 429),
        ("headers", .obj [("Retry-After", .num 25)])])]) = .ok (.bool false) ∧
    isRetryable (mkError "HTTP 429 Rate Limit Exceeded"
      [("response", .obj [("status", .num 429),
        ("headers", .obj [("RETRY-AFTER", .num 25)])])]) = .ok (.bool false) :=
  ⟨rfl, rfl, rfl, rfl, rfl⟩

/-- C3 (amended): the lookup is by the exact name `retry-after`. For every
response with status 429 and a header mapping, `isRetryable` returns the
truthiness of the entry named exactly `retry-after` (so `true` when that entry
is truthy), and `false` when no entry has exactly that name, whatever entries
of another letter case the mapping holds. -/
theorem isRetryable_exact_header_name (e : JSVal) (rs hs : List (String × JSVal))
    (hr : getProp e "response" = .ok (.obj rs))
    (hst : getProp (.obj rs) "status" = .ok (.num 429))
    (hh : getProp (.obj rs) "headers" = .ok (.obj hs)) :
    (∀ v, lookup "retry-after" hs = some v → isRetryable e = .ok (.bool (toBoolean v))) ∧
    (lookup "retry-after" hs = none → isRetryable e = .ok (.bool false)) := by
  have hb : toBoolean (.obj rs) = true := rfl
  rw [isRetryable_unfold e _ hr]
  constructor
  · intro v hv
    have hg : getProp (.obj hs) "retry-after" = .ok v := by simp [getProp, hv]
    simp [hb, hst, hh, strictEqNum, hg]
  · intro hv
    have hg : getProp (.obj hs) "retry-after" = .ok .undefined := by simp [getProp, hv]
    have hu : toBoolean .undefined = false := rfl
    simp [hb, hst, hh, strictEqNum, hg, hu]

/-- Witness for C3 (amended): status 429 with headers
`{'Retry-After': 0, 'retry-after': 25}`. -/
theorem isRetryable_exact_header_name_witness :
    isRetryable (mkError "HTTP 429 Rate Limit Exceeded"
      [("response", .obj [("status", .num 429),
        ("headers", .obj [("Retry-After", .num 0), ("retry-after", .num 25)])])])
      = .ok (.bool true) :=
  (isRetryable_exact_header_name
    (mkError "HTTP 429 Rate Limit Exceeded"
      [("response", .obj [("status", .num 429),
        ("headers", .obj [("Retry-After", .num 0), ("retry-after", .num 25)])])])
    [("status", .num 429), ("headers", .obj [("Retry-After", .num 0), ("retry-after", .num 25)])]
    [("Retry-After", .num 0), ("retry-after", .num 25)] rfl rfl rfl).1 (.num 25) rfl

/-- C4: for every error whose response has a status other than the number 429,
`isRetryable` returns `false`, whatever the headers are (absent, empty, or
holding a truthy `retry-after`). -/
theorem isRetryable_false_of_status_ne (e r s : JSVal)
    (hr : getProp e "response" = .ok r) (hs : getProp r "status" = .ok s)
    (hne : s ≠ .num 429) : isRetryable e = .ok (.bool false) := by
  rw [isRetryable_unfold e r hr]
  have h9 : strictEqNum s 429 = false := by
    cases h : strictEqNum s 429
    · rfl
    · exact absurd ((strictEqNum_iff s 429).1 h) hne
  cases hb : toBoolean r <;> simp [hs, h9]

/-- Witness for C4: statuses 400, 401, 403, 404 and 500 with no headers, and
status 503 with a truthy `retry-after`. -/
theorem isRetryable_false_of_status_ne_witness :
    isRetryable (mkError "HTTP 400 Bad Request" [("response", .obj [("status", .num 400)])])
      = .ok (.bool false) ∧
    isRetryable (mkError "HTTP 401 Unauthorized" [("response", .obj [("status", .num 401)])])
      = .ok (.bool false) ∧
    isRetryable (mkError "HTTP 403 Forbidden" [("response", .obj [("status", .num 403)])])
      = .ok (.bool false) ∧
    isRetryable (mkError "HTTP 404 Not Found" [("response", .obj [("status", .num 404)])])
      = .ok (.bool false) ∧
    isRetryable (mkError "HTTP 500 Server Error" [("response", .obj [("status", .num 500)])])
      = .ok (.bool false) ∧
    isRetryable (mkError "HTTP 503 Service Unavailable"
      [("response", .obj [("status", .num 503), ("headers", .obj [("retry-after", .num 25)])])])
      = .ok (.bool false) :=
  ⟨isRetryable_false_of_status_ne _ (.obj [("status", .num 400)]) (.num 400) rfl rfl (by simp),
   isRetryable_false_of_status_ne _ (.obj [("status", .num 401)]) (.num 401) rfl rfl (by simp),
   isRetryable_false_of_status_ne _ (.obj [("status", .num 403)]) (.num 403) rfl rfl (by simp),
   isRetryable_false_of_status_ne _ (.obj [("status", .num 404)]) (.num 404) rfl rfl (by simp),
   isRetryable_false_of_status_ne _ (.obj [("status", .num 500)]) (.num 500) rfl rfl (by simp),
   isRetryable_false_of_status_ne _
     (.obj [("status", .num 503), ("headers", .obj [("retry-after", .num 25)])]) (.num 503)
     rfl rfl (by simp)⟩

/-- C5: for every error whose `response` is not an object (absent on a plain
runtime error or on a request error that carries only a config and a request),
`isRetryable` returns the boolean `false`, whatever other fields the error
has. -/
theorem isRetryable_false_of_no_response (e r : JSVal)
    (hr : getProp e "response" = .ok r) (hno : ∀ fs, r ≠ .obj fs) :
    isRetryable e = .ok (.bool false) := by
  rw [isRetryable_unfold e r hr]
  cases r with
  | obj fs => exact absurd rfl (hno fs)
  | undefined => simp [toBoolean]
  | null => simp [toBoolean]
  | nan => simp [toBoolean]
  | bool b => cases b <;> simp [toBoolean, getProp, strictEqNum]
  | num n => by_cases h : n = 0 <;> simp [toBoolean, getProp, strictEqNum, h]
  | str t => by_cases h : t = "" <;> simp [toBoolean, getProp, strictEqNum, h]

/-- Witness for C5: a plain runtime error and a request error with a config
and a request but no response. -/
theorem isRetryable_false_of_no_response_witness :
    isRetryable (mkError "" []) = .ok (.bool false) ∧
    isRetryable (mkError "Request error" [("config", .obj []), ("request", .obj [])])
      = .ok (.bool false) :=
  ⟨isRetryable_false_of_no_response _ .undefined rfl (by intro fs h; cases h),
   isRetryable_false_of_no_response _ .undefined rfl (by intro fs h; cases h)⟩

/-- C6: for every response with status 429 whose header mapping has no entry
named `retry-after` (the empty mapping included), `isRetryable` returns the
boolean `false`. -/
theorem isRetryable_false_of_no_retry_after (e : JSVal) (rs hs : List (String × JSVal))
    (hr : getProp e "response" = .ok (.obj rs))
    (hst : lookup "status" rs = some (.num 429))
    (hh : lookup "headers" rs = some (.obj hs))
    (hn : lookup "retry-after" hs = none) :
    isRetryable e = .ok (.bool false) := by
  have hb : toBoolean (.obj rs) = true := rfl
  rw [isRetryable_unfold e _ hr]
  simp [hb, hst, hh, strictEqNum, getProp, hn, toBoolean]

/-- Witness for C6: the response `{ headers: {}, status: 429 }` of the test
suite. -/
theorem isRetryable_false_of_no_retry_after_witness :
    lookup "retry-after" [] = none ∧
    isRetryable (mkError "HTTP 429 Rate Limit Exceeded"
      [("response", .obj [("headers", .obj []), ("status", .num 429)])]) = .ok (.bool false) :=
  ⟨rfl, isRetryable_false_of_no_retry_after _ [("headers", .obj []), ("status", .num 429)] []
    rfl rfl rfl rfl⟩

/-! ## Claims about `retry` -/

/-- C7: for every error with a stored request configuration `c` (a truthy
`config`) and every client, `retry(client, error)` is one invocation of the
client on the argument list `[c]`: its outcome and its effect on the world are
those of that call (a value the client returns, or the raise of the client
itself, unchanged), and the call log of an instrumented client grows by the
single entry `[c]`. -/
theorem retry_invokes_client_once {σ : Type} (axios : Client σ) (e c : JSVal)
    (log : List (List JSVal)) (s : σ)
    (hc : getProp e "config" = .ok c) (ht : toBoolean c = true) :
    retry axios e s = axios [c] s ∧
    retry (traced axios) e (log, s) = ((axios [c] s).1, (log ++ [[c]], (axios [c] s).2)) := by
  constructor
  · simp [retry, hc, ht]
  · simp [retry, hc, ht, traced]

/-- Witness for C7: the configuration `{ method: 'POST', url: '/' }`, once with
a client that returns `undefined` and once with a client that raises. -/
theorem retry_invokes_client_once_witness :
    retry (traced (fun _ (u : Unit) => (.ok .undefined, u)))
        (mkError "HTTP 429 Rate Limit Exceeded"
          [("config", .obj [("method", .str "POST"), ("url", .str "/")])]) ([], ())
      = (.ok .undefined, ([[.obj [("method", .str "POST"), ("url", .str "/")]]], ())) ∧
    retry (traced (fun _ (u : Unit) => (.error (.value (.str "Network Error")), u)))
        (mkError "HTTP 429 Rate Limit Exceeded"
          [("config", .obj [("method", .str "POST"), ("url", .str "/")])]) ([], ())
      = (.error (.value (.str "Network Error")),
          ([[.obj [("method", .str "POST"), ("url", .str "/")]]], ())) :=
  ⟨(retry_invokes_client_once (fun _ (u : Unit) => (.ok .undefined, u))
      (mkError "HTTP 429 Rate Limit Exceeded"
        [("config", .obj [("method", .str "POST"), ("url", .str "/")])])
      (.obj [("method", .str "POST"), ("url", .str "/")]) [] () rfl rfl).2,
   (retry_invokes_client_once (fun _ (u : Unit) => (.error (.value (.str "Network Error")), u))
      (mkError "HTTP 429 Rate Limit Exceeded"
        [("config", .obj [("method", .str "POST"), ("url", .str "/")])])
      (.obj [("method", .str "POST"), ("url", .str "/")]) [] () rfl rfl).2⟩

/-- C8: for every error with no stored request configuration (`config` reads
as `undefined`) and every client, `retry(client, error)` raises that very
error value, and the client is not invoked: the world and the call log of an
instrumented client are unchanged. -/
theorem retry_rethrows_without_config {σ : Type} (axios : Client σ) (e : JSVal)
    (log : List (List JSVal)) (s : σ)
    (hc : getProp e "config" = .ok .undefined) :
    retry axios e s = (.error (.value e), s) ∧
    retry (traced axios) e (log, s) = (.error (.value e), (log, s)) := by
  constructor <;> simp [retry, hc, toBoolean]

/-- Witness for C8: `new Error('Foobar')` with a client that does nothing. -/
theorem retry_rethrows_without_config_witness :
    retry (traced (fun _ (u : Unit) => (.ok .undefined, u))) (mkError "Foobar" []) ([], ())
      = (.error (.value (mkError "Foobar" [])), ([], ())) :=
  (retry_rethrows_without_config (fun _ (u : Unit) => (.ok .undefined, u))
    (mkError "Foobar" []) [] () rfl).2

/-! ## Claims about `wait` -/

/-- C9: for every error whose response headers carry a `retry-after` value
`v` (a number `N` in particular), `wait(error)` creates one pending promise and
registers exactly one timer with the host, whose callback resolves that promise
and whose delay argument is `v` itself, with no arithmetic applied. -/
theorem wait_schedules_raw_delay (e r hd v : JSVal) (h : Host)
    (hr : getProp e "response" = .ok r) (hh : getProp r "headers" = .ok hd)
    (hv : getProp hd "retry-after" = .ok v) :
    wait e h =
      (h.promises.length,
        { promises := h.promises ++ [.pending],
          timers := h.timers ++ [{ resolves := h.promises.length, delay := v }] }) := by
  simp [wait, hr, hh, hv]

/-- Witness for C9: `retry-after: 25` registers one timer of delay 25. -/
theorem wait_schedules_raw_delay_witness :
    wait (mkError "HTTP 429 Rate Limit Exceeded"
        [("response", .obj [("status", .num 429), ("headers", .obj [("retry-after", .num 25)])])])
        { promises := [], timers := [] }
      = (0, { promises := [.pending], timers := [{ resolves := 0, delay := .num 25 }] }) :=
  wait_schedules_raw_delay _
    (.obj [("status", .num 429), ("headers", .obj [("retry-after", .num 25)])])
    (.obj [("retry-after", .num 25)]) (.num 25) { promises := [], timers := [] } rfl rfl rfl

/-- C10 (as stated, refuted): with `retry-after: 2`, the error of the test
"waits the number of seconds specified in the Retry-After header", the only
timer `wait` registers has delay 2, not 1000 × 2. -/
theorem wait_delay_not_in_seconds :
    (wait (mkError "HTTP 429 Rate Limit Exceeded"
        [("response", .obj [("headers", .obj [("retry-after", .num 2)])])])
        { promises := [], timers := [] }).2.timers.map Timer.delay = [.num 2] ∧
    (wait (mkError "HTTP 429 Rate Limit Exceeded"
        [("response", .obj [("headers", .obj [("retry-after", .num 2)])])])
        { promises := [], timers := [] }).2.timers.map Timer.delay ≠ [.num (1000 * 2)] := by
  have h : (wait (mkError "HTTP 429 Rate Limit Exceeded"
        [("response", .obj [("headers", .obj [("retry-after", .num 2)])])])
        { promises := [], timers := [] }).2.timers.map Timer.delay = [.num 2] := rfl
  refine ⟨h, ?_⟩
  rw [h]
  simp

/-! ## Further claims about `isRetryable` and `retry` -/

/-- C14 (as stated, refuted): with status 429 and the header string `"0"`, as
a server sending `Retry-After: 0` delivers it, `isRetryable` returns `true`:
a non-empty string is truthy. -/
theorem isRetryable_true_on_string_zero :
    isRetryable (mkError "HTTP 429 Rate Limit Exceeded"
      [("response", .obj [("status", .num 429),
        ("headers", .obj [("retry-after", .str "0")])])]) = .ok (.bool true) :=
  rfl

/-- C14 (amended): for every response with status 429 whose `retry-after`
value is falsy (the empty string and the number 0 among them), `isRetryable`
returns `false`. -/
theorem isRetryable_false_of_falsy_retry_after (e r hd v : JSVal)
    (hr : getProp e "response" = .ok r) (hs : getProp r "status" = .ok (.num 429))
    (hh : getProp r "headers" = .ok hd) (hv : getProp hd "retry-after" = .ok v)
    (hf : toBoolean v = false) :
    isRetryable e = .ok (.bool false) := by
  obtain ⟨fs, rfl⟩ := getProp_defined_obj r _ "status" hs (by simp)
  have hb : toBoolean (.obj fs) = true := rfl
  rw [isRetryable_unfold e _ hr]
  simp [hb, hs, hh, hv, strictEqNum, hf]

/-- Witness for C14 (amended): the empty string and the number 0. -/
theorem isRetryable_false_of_falsy_retry_after_witness :
    toBoolean (.str "") = false ∧ toBoolean (.num 0) = false ∧
    isRetryable (mkError "HTTP 429 Rate Limit Exceeded"
      [("response", .obj [("status", .num 429),
        ("headers", .obj [("retry-after", .str "")])])]) = .ok (.bool false) ∧
    isRetryable (mkError "HTTP 429 Rate Limit Exceeded"
      [("response", .obj [("status", .num 429),
        ("headers", .obj [("retry-after", .num 0)])])]) = .ok (.bool false) :=
  ⟨rfl, rfl,
   isRetryable_false_of_falsy_retry_after _
     (.obj [("status", .num 429), ("headers", .obj [("retry-after", .str "")])])
     (.obj [("retry-after", .str "")]) (.str "") rfl rfl rfl rfl rfl,
   isRetryable_false_of_falsy_retry_after _
     (.obj [("status", .num 429), ("headers", .obj [("retry-after", .num 0)])])
     (.obj [("retry-after", .num 0)]) (.num 0) rfl rfl rfl rfl rfl⟩

/-- C15: when `error.config` reads as a value `c`, `retry` raises the error
itself, without invoking the client, exactly when `c` is falsy (`undefined`,
`null`, the empty string, 0, `false`); for every truthy `c`, the empty object
included, it does not raise by itself: it is the client call on `[c]`. -/
theorem retry_raises_iff_config_falsy {σ : Type} (axios : Client σ) (e c : JSVal)
    (log : List (List JSVal)) (s : σ) (hc : getProp e "config" = .ok c) :
    (toBoolean c = false →
      retry axios e s = (.error (.value e), s) ∧
      retry (traced axios) e (log, s) = (.error (.value e), (log, s))) ∧
    (toBoolean c = true →
      retry axios e s = axios [c] s ∧
      retry (traced axios) e (log, s) = ((axios [c] s).1, (log ++ [[c]], (axios [c] s).2))) ∧
    ((retry (traced axios) e (log, s)).2.1 = log ↔ toBoolean c = false) := by
  cases ht : toBoolean c
  · simp [retry, hc, ht]
  · simp [retry, hc, ht, traced]

/-- Witness for C15: `config` equal to `null`, the empty string, 0 and `false`
raises the error; `config` equal to the empty object is forwarded. -/
theorem retry_raises_iff_config_falsy_witness :
    retry (traced (fun _ (u : Unit) => (.ok .undefined, u)))
        (mkError "Foobar" [("config", .null)]) ([], ())
      = (.error (.value (mkError "Foobar" [("config", .null)])), ([], ())) ∧
    retry (traced (fun _ (u : Unit) => (.ok .undefined, u)))
        (mkError "Foobar" [("config", .str "")]) ([], ())
      = (.error (.value (mkError "Foobar" [("config", .str "")])), ([], ())) ∧
    retry (traced (fun _ (u : Unit) => (.ok .undefined, u)))
        (mkError "Foobar" [("config", .num 0)]) ([], ())
      = (.error (.value (mkError "Foobar" [("config", .num 0)])), ([], ())) ∧
    retry (traced (fun _ (u : Unit) => (.ok .undefined, u)))
        (mkError "Foobar" [("config", .bool false)]) ([], ())
      = (.error (.value (mkError "Foobar" [("config", .bool false)])), ([], ())) ∧
    retry (traced (fun _ (u : Unit) => (.ok .undefined, u)))
        (mkError "Foobar" [("config", .obj [])]) ([], ())
      = (.ok .undefined, ([[.obj []]], ())) :=
  ⟨((retry_raises_iff_config_falsy (fun _ (u : Unit) => (.ok .undefined, u))
      (mkError "Foobar" [("config", .null)]) .null [] () rfl).1 rfl).2,
   ((retry_raises_iff_config_falsy (fun _ (u : Unit) => (.ok .undefined, u))
      (mkError "Foobar" [("config", .str "")]) (.str "") [] () rfl).1 rfl).2,
   ((retry_raises_iff_config_falsy (fun _ (u : Unit) => (.ok .undefined, u))
      (mkError "Foobar" [("config", .num 0)]) (.num 0) [] () rfl).1 rfl).2,
   ((retry_raises_iff_config_falsy (fun _ (u : Unit) => (.ok .undefined, u))
      (mkError "Foobar" [("config", .bool false)]) (.bool false) [] () rfl).1 rfl).2,
   ((retry_raises_iff_config_falsy (fun _ (u : Unit) => (.ok .undefined, u))
      (mkError "Foobar" [("config", .obj [])]) (.obj []) [] () rfl).2.1 rfl).2⟩

/-- C16 (as stated, refuted): two errors with the same (absent) config, one
retryable and one with status 500, do not have the same outcome: each call
raises its own error value, and those values differ in their response. -/
theorem retry_outcome_differs_without_config :
    getProp (mkError "HTTP 429 Rate Limit Exceeded"
        [("response", .obj [("status", .num 429), ("headers", .obj [("retry-after", .num 25)])])])
        "config"
      = getProp (mkError "HTTP 429 Rate Limit Exceeded"
        [("response", .obj [("status", .num 500)])]) "config" ∧
    isRetryable (mkError "HTTP 429 Rate Limit Exceeded"
        [("response", .obj [("status", .num 429), ("headers", .obj [("retry-after", .num 25)])])])
      = .ok (.bool true) ∧
    isRetryable (mkError "HTTP 429 Rate Limit Exceeded"
        [("response", .obj [("status", .num 500)])]) = .ok (.bool false) ∧
    (retry (fun _ (u : Unit) => (.ok .undefined, u))
        (mkError "HTTP 429 Rate Limit Exceeded"
          [("response", .obj [("status", .num 429),
            ("headers", .obj [("retry-after", .num 25)])])]) ()).1
      ≠ (retry (fun _ (u : Unit) => (.ok .undefined, u))
        (mkError "HTTP 429 Rate Limit Exceeded"
          [("response", .obj [("status", .num 500)])]) ()).1 := by
  refine ⟨rfl, rfl, rfl, ?_⟩
  intro h
  simp [retry, getProp, lookup, mkError, toBoolean] at h

/-- C16 (amended): for every client and every two errors with the same truthy
config, whatever their response, status or headers, `retry` makes the same
client call and has the same outcome, so it neither checks `isRetryable` nor
reads the response; with the same falsy config neither call reaches the
client, and each raises the error it was given. -/
theorem retry_depends_on_config_only {σ : Type} (axios : Client σ) (e1 e2 c : JSVal)
    (log : List (List JSVal)) (s : σ)
    (h1 : getProp e1 "config" = .ok c) (h2 : getProp e2 "config" = .ok c) :
    (toBoolean c = true →
      retry axios e1 s = retry axios e2 s ∧
      retry (traced axios) e1 (log, s) = retry (traced axios) e2 (log, s) ∧
      retry (traced axios) e1 (log, s) = ((axios [c] s).1, (log ++ [[c]], (axios [c] s).2))) ∧
    (toBoolean c = false →
      retry (traced axios) e1 (log, s) = (.error (.value e1), (log, s)) ∧
      retry (traced axios) e2 (log, s) = (.error (.value e2), (log, s))) := by
  cases ht : toBoolean c
  · simp [retry, h1, h2, ht]
  · simp [retry, h1, h2, ht, traced]

/-- Witness for C16 (amended): a retryable error and an error of status 500,
both with the configuration `{ method: 'POST', url: '/' }`. -/
theorem retry_depends_on_config_only_witness :
    retry (traced (fun _ (u : Unit) => (.ok .undefined, u)))
        (mkError "HTTP 429 Rate Limit Exceeded"
          [("response", .obj [("status", .num 429),
            ("headers", .obj [("retry-after", .num 25)])]),
           ("config", .obj [("method", .str "POST"), ("url", .str "/")])]) ([], ())
      = retry (traced (fun _ (u : Unit) => (.ok .undefined, u)))
        (mkError "HTTP 500 Server Error"
          [("response", .obj [("status", .num 500)]),
           ("config", .obj [("method", .str "POST"), ("url", .str "/")])]) ([], ()) :=
  ((retry_depends_on_config_only (fun _ (u : Unit) => (.ok .undefined, u))
    (mkError "HTTP 429 Rate Limit Exceeded"
      [("response", .obj [("status", .num 429),
        ("headers", .obj [("retry-after", .num 25)])]),
       ("config", .obj [("method", .str "POST"), ("url", .str "/")])])
    (mkError "HTTP 500 Server Error"
      [("response", .obj [("status", .num 500)]),
       ("config", .obj [("method", .str "POST"), ("url", .str "/")])])
    (.obj [("method", .str "POST"), ("url", .str "/")]) [] () rfl rfl).1 rfl).2.1

/-! ## The event loop: lemmas -/

theorem canFire_iff (L : Loop) (i : Nat) :
    canFire L i = true ↔
      ∃ e, L.queue[i]? = some e ∧ e.fired = false ∧ e.due ≤ L.now ∧
        ∀ j f, L.queue[j]? = some f →
          f.fired = true ∨ e.due < f.due ∨ (e.due = f.due ∧ i ≤ j) := by
  unfold canFire
  cases hi : L.queue[i]? with
  | none => simp
  | some e =>
    simp only [Bool.and_eq_true, Bool.not_eq_true', decide_eq_true_eq, List.all_eq_true,
      List.mem_range, Option.some.injEq, exists_eq_left']
    constructor
    · rintro ⟨⟨h1, h2⟩, h3⟩
      refine ⟨h1, h2, ?_⟩
      intro j f hj
      have hlt : j < L.queue.length := by
        by_contra hge
        rw [List.getElem?_eq_none (by omega)] at hj
        cases hj
      have := h3 j hlt
      simp only [hj, Bool.or_eq_true, Bool.and_eq_true, decide_eq_true_eq] at this
      tauto
    · rintro ⟨h1, h2, h3⟩
      refine ⟨⟨h1, h2⟩, ?_⟩
      intro j _
      cases hj : L.queue[j]? with
      | none => rfl
      | some f =>
        have := h3 j f hj
        simp only [Bool.or_eq_true, Bool.and_eq_true, decide_eq_true_eq]
        tauto

theorem fire_queue (L : Loop) (i : Nat) (e : Entry) (hi : L.queue[i]? = some e) :
    (fire L i).queue = L.queue.set i { e with fired := true } ∧ (fire L i).now = L.now := by
  simp [fire, hi]

theorem callWait_cases (dl : JSVal → Nat) (e : JSVal) (L : Loop) :
    (callWait dl e L).1 = L.promises.length ∧
    ((∃ a, (callWait dl e L).2 =
        { promises := L.promises ++ [.rejected a], queue := L.queue, now := L.now }) ∨
     (∃ v, (callWait dl e L).2 =
        { promises := L.promises ++ [.pending],
          queue := L.queue ++
            [{ callback := some L.promises.length, delay := v, due := L.now + dl v,
               fired := false }],
          now := L.now })) := by
  unfold callWait wait
  constructor
  · dsimp only
    split <;> rfl
  · dsimp only
    split
    · rename_i l a h
      left; exact ⟨a, by simp⟩
    · rename_i l v h
      right; exact ⟨v, by simp [register]⟩

theorem getElem?_snoc {α : Type} (l : List α) (a x : α) (j : Nat)
    (h : (l ++ [a])[j]? = some x) : l[j]? = some x ∨ (j = l.length ∧ x = a) := by
  by_cases hj : j < l.length
  · rw [List.getElem?_append_left hj] at h
    exact Or.inl h
  · rw [List.getElem?_append_right (by omega)] at h
    right
    have hz : j - l.length = 0 := by
      by_contra hne
      rw [List.getElem?_eq_none (by simp; omega)] at h
      cases h
    rw [hz] at h
    simp at h
    exact ⟨by omega, h.symm⟩

theorem getElem?_snoc_left {α : Type} (l : List α) (a : α) (j : Nat) (hj : j < l.length) :
    (l ++ [a])[j]? = l[j]? :=
  List.getElem?_append_left hj

theorem getElem?_lt {α : Type} (l : List α) (x : α) (j : Nat) (h : l[j]? = some x) :
    j < l.length := by
  by_contra hge
  rw [List.getElem?_eq_none (by omega)] at h
  cases h

theorem settle_length (ps : List PromiseState) (p : Nat) (v : JSVal) :
    (settle ps p v).length = ps.length := by
  unfold settle
  split <;> simp

theorem settle_other (ps : List PromiseState) (p q : Nat) (v : JSVal) (h : q ≠ p) :
    (settle ps q v)[p]? = ps[p]? := by
  unfold settle
  split
  · exact List.getElem?_set_ne h
  · rfl

theorem settle_pending (ps : List PromiseState) (p : Nat) (v : JSVal)
    (h : ps[p]? = some .pending) : (settle ps p v)[p]? = some (.fulfilled v) := by
  unfold settle
  rw [h]
  simp [List.getElem?_set, getElem?_lt ps _ p h]

theorem settle_fulfilled (ps : List PromiseState) (p q : Nat) (v w : JSVal)
    (h : ps[p]? = some (.fulfilled w)) : (settle ps q v)[p]? = some (.fulfilled w) := by
  by_cases hq : q = p
  · subst hq
    unfold settle
    rw [h]
    exact h
  · rw [settle_other ps p q v hq, h]

theorem fire_spec (L : Loop) (i : Nat) (e : Entry) (hi : L.queue[i]? = some e) :
    fire L i =
      { promises :=
          match e.callback with
          | some p => settle L.promises p .undefined
          | none => L.promises,
        queue := L.queue.set i { e with fired := true },
        now := L.now } := by
  simp [fire, hi]

theorem fire_promises_length (L : Loop) (i : Nat) :
    (fire L i).promises.length = L.promises.length := by
  unfold fire
  split
  · rfl
  · dsimp only
    split
    · exact settle_length _ _ _
    · rfl

theorem fire_entry (L : Loop) (i j : Nat) (e f : Entry) (hi : L.queue[i]? = some e)
    (hj : (fire L i).queue[j]? = some f) :
    (j = i ∧ f = { e with fired := true }) ∨ (j ≠ i ∧ L.queue[j]? = some f) := by
  rw [fire_spec L i e hi] at hj
  dsimp only at hj
  by_cases hji : i = j
  · subst hji
    left
    rw [List.getElem?_set] at hj
    simp [getElem?_lt _ _ _ hi] at hj
    exact ⟨rfl, hj.symm⟩
  · right
    rw [List.getElem?_set_ne hji] at hj
    exact ⟨fun h => hji h.symm, hj⟩

theorem Sound_start : Sound Loop.start := by
  constructor <;> intro j f <;> simp [Loop.start]

theorem Sound_step (dl : JSVal → Nat) (L L' : Loop) (ev : Event) (hS : Sound L)
    (h : step dl L ev = some L') : Sound L' := by
  cases ev with
  | tick =>
    simp only [step, Option.some.injEq] at h
    subst h
    exact ⟨hS.callbacks, fun j f hj hf => Nat.le_succ_of_le (hS.firedDue j f hj hf)⟩
  | setTimer d =>
    simp only [step, Option.some.injEq] at h
    subst h
    constructor
    · intro j f q hj hq
      rcases getElem?_snoc _ _ _ _ hj with hj | ⟨_, rfl⟩
      · exact hS.callbacks j f q hj hq
      · cases hq
    · intro j f hj hf
      rcases getElem?_snoc _ _ _ _ hj with hj | ⟨_, rfl⟩
      · exact hS.firedDue j f hj hf
      · cases hf
  | callWait e =>
    simp only [step, Option.some.injEq] at h
    subst h
    rcases (callWait_cases dl e L).2 with ⟨a, ha⟩ | ⟨v, hv⟩
    · rw [ha]
      constructor
      · intro j f q hj hq
        have := hS.callbacks j f q hj hq
        simp only [List.length_append, List.length_singleton]
        omega
      · exact hS.firedDue
    · rw [hv]
      constructor
      · intro j f q hj hq
        simp only [List.length_append, List.length_singleton]
        rcases getElem?_snoc _ _ _ _ hj with hj | ⟨_, rfl⟩
        · have := hS.callbacks j f q hj hq
          omega
        · simp only [Option.some.injEq] at hq
          omega
      · intro j f hj hf
        rcases getElem?_snoc _ _ _ _ hj with hj | ⟨_, rfl⟩
        · exact hS.firedDue j f hj hf
        · cases hf
  | fire i =>
    simp only [step] at h
    split at h
    · rename_i hc
      simp only [Option.some.injEq] at h
      subst h
      obtain ⟨e, hi, hunf, hdue, _⟩ := (canFire_iff L i).1 hc
      constructor
      · intro j f q hj hq
        rw [fire_promises_length]
        rcases fire_entry L i j e f hi hj with ⟨_, rfl⟩ | ⟨_, hj⟩
        · exact hS.callbacks i e q hi hq
        · exact hS.callbacks j f q hj hq
      · intro j f hj hf
        rw [(fire_queue L i e hi).2]
        rcases fire_entry L i j e f hi hj with ⟨_, rfl⟩ | ⟨_, hj⟩
        · exact hdue
        · exact hS.firedDue j f hj hf
    · cases h

theorem Sound_run (dl : JSVal → Nat) (evs : List Event) :
    ∀ (L L' : Loop), Sound L → run dl L evs = some L' → Sound L' := by
  induction evs with
  | nil =>
    intro L L' hS h
    simp only [run, Option.some.injEq] at h
    exact h ▸ hS
  | cons ev evs ih =>
    intro L L' hS h
    simp only [run] at h
    cases hs : step dl L ev with
    | none => simp [hs] at h
    | some L1 =>
      simp only [hs] at h
      exact ih L1 L' (Sound_step dl L L1 ev hS hs) h

theorem callWait_ok (dl : JSVal → Nat) (e r hd v : JSVal) (L : Loop)
    (hr : getProp e "response" = .ok r) (hh : getProp r "headers" = .ok hd)
    (hv : getProp hd "retry-after" = .ok v) :
    callWait dl e L =
      (L.promises.length,
        { promises := L.promises ++ [.pending],
          queue := L.queue ++
            [{ callback := some L.promises.length, delay := v, due := L.now + dl v,
               fired := false }],
          now := L.now }) := by
  simp [callWait, wait, hr, hh, hv, register]

theorem Tracks_callWait (dl : JSVal → Nat) (e r hd v : JSVal) (L : Loop) (hS : Sound L)
    (hr : getProp e "response" = .ok r) (hh : getProp r "headers" = .ok hd)
    (hv : getProp hd "retry-after" = .ok v) :
    Tracks L.promises.length L.queue.length (L.now + dl v) (callWait dl e L).2 := by
  rw [callWait_ok dl e r hd v L hr hh hv]
  constructor
  · simp
  · exact ⟨Entry.mk (some L.promises.length) v (L.now + dl v) false, by simp, rfl, rfl⟩
  · intro j f hj hq
    rcases getElem?_snoc _ _ _ _ hj with hj | ⟨hjk, _⟩
    · exact absurd (hS.callbacks j f _ hj hq) (Nat.lt_irrefl _)
    · exact hjk
  · left
    constructor
    · simp
    · intro fk hk
      simp at hk
      rw [← hk]
  · intro j f hj hf hd
    exfalso
    rcases getElem?_snoc _ _ _ _ hj with hj | ⟨_, rfl⟩
    · have := hS.firedDue j f hj hf
      omega
    · cases hf

theorem Tracks_step (dl : JSVal → Nat) (p k d : Nat) (L L' : Loop) (ev : Event)
    (hT : Tracks p k d L) (h : step dl L ev = some L') : Tracks p k d L' := by
  obtain ⟨fk, hk, hkc, hkd⟩ := hT.entry
  have hklt : k < L.queue.length := getElem?_lt _ _ _ hk
  cases ev with
  | tick =>
    simp only [step, Option.some.injEq] at h
    subst h
    refine ⟨hT.promise, hT.entry, hT.only, ?_, hT.later⟩
    rcases hT.state with hp | ⟨h1, h2, h3⟩
    · exact Or.inl hp
    · exact Or.inr ⟨h1, h2, Nat.le_succ_of_le h3⟩
  | setTimer dly =>
    simp only [step, Option.some.injEq] at h
    subst h
    have hk' : ∀ x : Entry, (L.queue ++ [x])[k]? = L.queue[k]? :=
      fun x => getElem?_snoc_left _ x _ hklt
    refine ⟨hT.promise, ⟨fk, by rw [hk']; exact hk, hkc, hkd⟩, ?_, ?_, ?_⟩
    · intro j f hj hq
      rcases getElem?_snoc _ _ _ _ hj with hj | ⟨_, rfl⟩
      · exact hT.only j f hj hq
      · cases hq
    · dsimp only
      rw [hk']
      exact hT.state
    · intro j f hj hf hd
      rcases getElem?_snoc _ _ _ _ hj with hj | ⟨_, rfl⟩
      · exact hT.later j f hj hf hd
      · cases hf
  | callWait e =>
    simp only [step, Option.some.injEq] at h
    subst h
    have hp := hT.promise
    rcases (callWait_cases dl e L).2 with ⟨a, ha⟩ | ⟨v, hv⟩
    · rw [ha]
      have hpp : (L.promises ++ [PromiseState.rejected a])[p]? = L.promises[p]? :=
        getElem?_snoc_left _ _ _ hp
      refine ⟨by simp; omega, hT.entry, hT.only, ?_, ?_⟩
      · dsimp only
        rw [hpp]
        exact hT.state
      · dsimp only
        rw [hpp]
        exact hT.later
    · rw [hv]
      have hpp : (L.promises ++ [PromiseState.pending])[p]? = L.promises[p]? :=
        getElem?_snoc_left _ _ _ hp
      have hk' : ∀ x : Entry, (L.queue ++ [x])[k]? = L.queue[k]? :=
        fun x => getElem?_snoc_left _ x _ hklt
      refine ⟨by simp; omega, ⟨fk, by rw [hk']; exact hk, hkc, hkd⟩, ?_, ?_, ?_⟩
      · intro j f hj hq
        rcases getElem?_snoc _ _ _ _ hj with hj | ⟨_, rfl⟩
        · exact hT.only j f hj hq
        · simp only [Option.some.injEq] at hq
          omega
      · dsimp only
        rw [hpp, hk']
        exact hT.state
      · dsimp only
        rw [hpp]
        intro j f hj hf hd
        rcases getElem?_snoc _ _ _ _ hj with hj | ⟨_, rfl⟩
        · exact hT.later j f hj hf hd
        · cases hf
  | fire i =>
    simp only [step] at h
    split at h
    · rename_i hc
      simp only [Option.some.injEq] at h
      subst h
      obtain ⟨e, hi, hunf, hdue, hmin⟩ := (canFire_iff L i).1 hc
      have hspec := fire_spec L i e hi
      by_cases hik : i = k
      · subst hik
        have hef : e = fk := by rw [hi] at hk; exact Option.some.inj hk
        subst hef
        have hpend : L.promises[p]? = some .pending := by
          rcases hT.state with ⟨h1, _⟩ | ⟨_, h2, _⟩
          · exact h1
          · rw [h2 e hi] at hunf; cases hunf
        have hful : (fire L i).promises[p]? = some (.fulfilled .undefined) := by
          rw [hspec]
          dsimp only
          rw [hkc]
          exact settle_pending _ _ _ hpend
        have hq : (fire L i).queue[i]? = some { e with fired := true } := by
          rw [hspec]
          dsimp only
          rw [List.getElem?_set]
          simp [hklt]
        refine ⟨by rw [fire_promises_length]; exact hT.promise, ⟨_, hq, hkc, hkd⟩, ?_, ?_, ?_⟩
        · intro j f hj hcb
          rcases fire_entry L i j e f hi hj with ⟨hji, _⟩ | ⟨_, hj⟩
          · exact hji
          · exact hT.only j f hj hcb
        · right
          refine ⟨hful, ?_, ?_⟩
          · intro f hf
            rw [hq] at hf
            rw [← Option.some.inj hf]
          · rw [(fire_queue L i e hi).2, ← hkd]
            exact hdue
        · intro _ _ _ _ _
          exact hful
      · have hcb : e.callback ≠ some p := fun hc => hik (hT.only i e hi hc)
        have hpp : (fire L i).promises[p]? = L.promises[p]? := by
          rw [hspec]
          dsimp only
          cases hcq : e.callback with
          | none => rfl
          | some q =>
            dsimp only
            exact settle_other _ _ _ _ (fun hqp => hcb (by rw [hcq, hqp]))
        have hq : (fire L i).queue[k]? = L.queue[k]? := by
          rw [hspec]
          dsimp only
          exact List.getElem?_set_ne hik
        refine ⟨by rw [fire_promises_length]; exact hT.promise,
          ⟨fk, by rw [hq]; exact hk, hkc, hkd⟩, ?_, ?_, ?_⟩
        · intro j f hj hcbf
          rcases fire_entry L i j e f hi hj with ⟨hji, rfl⟩ | ⟨_, hj⟩
          · exact absurd hcbf hcb
          · exact hT.only j f hj hcbf
        · rw [hpp, hq, (fire_queue L i e hi).2]
          exact hT.state
        · intro j f hj hf hd
          rw [hpp]
          rcases fire_entry L i j e f hi hj with ⟨hji, rfl⟩ | ⟨_, hj⟩
          · dsimp only at hd
            rcases hmin k fk hk with hfired | hlt | ⟨heq, _⟩
            · rcases hT.state with ⟨_, h2⟩ | ⟨h1, _⟩
              · rw [h2 fk hk] at hfired; cases hfired
              · exact h1
            · omega
            · omega
          · exact hT.later j f hj hf hd
    · cases h

theorem Tracks_run (dl : JSVal → Nat) (p k d : Nat) (evs : List Event) :
    ∀ (L L' : Loop), Tracks p k d L → run dl L evs = some L' → Tracks p k d L' := by
  induction evs with
  | nil =>
    intro L L' hT h
    simp only [run, Option.some.injEq] at h
    exact h ▸ hT
  | cons ev evs ih =>
    intro L L' hT h
    simp only [run] at h
    cases hs : step dl L ev with
    | none => simp [hs] at h
    | some L1 =>
      simp only [hs] at h
      exact ih L1 L' (Tracks_step dl p k d L L1 ev hT hs) h

theorem run_append (dl : JSVal → Nat) (a b : List Event) :
    ∀ (L L1 L2 : Loop), run dl L a = some L1 → run dl L1 b = some L2 →
      run dl L (a ++ b) = some L2 := by
  induction a with
  | nil =>
    intro L L1 L2 h1 h2
    simp only [run, Option.some.injEq] at h1
    subst h1
    exact h2
  | cons ev a ih =>
    intro L L1 L2 h1 h2
    simp only [run, List.cons_append] at h1 ⊢
    cases hs : step dl L ev with
    | none => simp [hs] at h1
    | some L0 =>
      simp only [hs] at h1 ⊢
      exact ih L0 L1 L2 h1 h2

theorem run_ticks (dl : JSVal → Nat) (m : Nat) :
    ∀ L : Loop, run dl L (List.replicate m .tick) = some { L with now := L.now + m } := by
  induction m with
  | zero => intro L; rfl
  | succ m ih =>
    intro L
    simp only [List.replicate_succ, run, step]
    rw [ih]
    simp only [Option.some.injEq, Loop.mk.injEq, true_and]
    omega

theorem exists_canFire (L : Loop)
    (hne : ∃ (j : Nat) (f : Entry), L.queue[j]? = some f ∧ f.fired = false)
    (hdue : ∀ (j : Nat) (f : Entry), L.queue[j]? = some f → f.due ≤ L.now) :
    ∃ i, canFire L i = true := by
  let dueAt : Nat → Nat := fun j => match L.queue[j]? with
    | some f => f.due
    | none => 0
  let isOpen : Nat → Bool := fun j => match L.queue[j]? with
    | some f => !f.fired
    | none => false
  let S : Finset Nat := (Finset.range L.queue.length).filter (fun j => isOpen j = true)
  have hS : S.Nonempty := by
    obtain ⟨j, f, hj, hf⟩ := hne
    refine ⟨j, ?_⟩
    simp only [S, Finset.mem_filter, Finset.mem_range, isOpen]
    exact ⟨getElem?_lt _ _ _ hj, by simp [hj, hf]⟩
  obtain ⟨i, hiS, hmin⟩ := Finset.exists_min_image S (fun j => toLex (dueAt j, j)) hS
  simp only [S, Finset.mem_filter, Finset.mem_range, isOpen] at hiS
  obtain ⟨hilt, hio⟩ := hiS
  cases hi : L.queue[i]? with
  | none => simp [hi] at hio
  | some e =>
    simp only [hi, Bool.not_eq_true'] at hio
    refine ⟨i, (canFire_iff L i).2 ⟨e, hi, hio, hdue i e hi, ?_⟩⟩
    intro j f hj
    cases hf : f.fired
    · right
      have hjS : j ∈ S := by
        simp only [S, Finset.mem_filter, Finset.mem_range, isOpen]
        exact ⟨getElem?_lt _ _ _ hj, by simp [hj, hf]⟩
      have hle := hmin j hjS
      rw [Prod.Lex.le_iff] at hle
      simp only [dueAt, hi, hj] at hle
      exact hle
    · exact Or.inl rfl

theorem countP_set_fired (l : List Entry) :
    ∀ (i : Nat) (e : Entry), l[i]? = some e → e.fired = false →
      (l.set i { e with fired := true }).countP (fun f => !f.fired) + 1
        = l.countP (fun f => !f.fired) := by
  induction l with
  | nil => intro i e h; simp at h
  | cons a l ih =>
    intro i e h hf
    cases i with
    | zero =>
      simp only [List.getElem?_cons_zero, Option.some.injEq] at h
      subst h
      simp [List.countP_cons, hf]
    | succ i =>
      simp only [List.getElem?_cons_succ] at h
      simp only [List.set_cons_succ, List.countP_cons]
      have := ih i e h hf
      omega

theorem exists_drain (dl : JSVal → Nat) (n : Nat) :
    ∀ L : Loop, unfired L = n →
      (∀ (j : Nat) (f : Entry), L.queue[j]? = some f → f.due ≤ L.now) →
      ∃ evs L', run dl L evs = some L' ∧
        ∀ (j : Nat) (f : Entry), L'.queue[j]? = some f → f.fired = true := by
  induction n with
  | zero =>
    intro L hn _
    refine ⟨[], L, rfl, ?_⟩
    intro j f hj
    simp only [unfired, List.countP_eq_zero] at hn
    have := hn f (List.mem_iff_getElem?.2 ⟨j, hj⟩)
    simpa using this
  | succ n ih =>
    intro L hn hdue
    have hpos : 0 < L.queue.countP (fun f => !f.fired) := by
      simp only [unfired] at hn
      omega
    obtain ⟨f, hfmem, hfp⟩ := List.countP_pos_iff.1 hpos
    obtain ⟨j, hj⟩ := List.mem_iff_getElem?.1 hfmem
    obtain ⟨i, hc⟩ := exists_canFire L ⟨j, f, hj, by simpa using hfp⟩ hdue
    obtain ⟨e, hi, hunf, _, _⟩ := (canFire_iff L i).1 hc
    have hq := fire_queue L i e hi
    have hcount : unfired (fire L i) = n := by
      have := countP_set_fired L.queue i e hi hunf
      simp only [unfired, hq.1] at hn ⊢
      omega
    have hdue2 : ∀ (j : Nat) (f : Entry), (fire L i).queue[j]? = some f →
        f.due ≤ (fire L i).now := by
      intro j f hj
      rw [hq.2]
      rcases fire_entry L i j e f hi hj with ⟨_, rfl⟩ | ⟨_, hj⟩
      · exact hdue i e hi
      · exact hdue j f hj
    obtain ⟨evs, L2, hrun, hall⟩ := ih (fire L i) hcount hdue2
    refine ⟨.fire i :: evs, L2, ?_, hall⟩
    simp only [run, step, hc, if_true]
    exact hrun

theorem exists_due_bound (l : List Entry) : ∃ M, ∀ f ∈ l, f.due ≤ M := by
  induction l with
  | nil => exact ⟨0, by simp⟩
  | cons a l ih =>
    obtain ⟨M, hM⟩ := ih
    refine ⟨max a.due M, ?_⟩
    intro f hf
    rcases List.mem_cons.1 hf with rfl | hf
    · exact le_max_left _ _
    · exact le_trans (hM f hf) (le_max_right _ _)

theorem exists_run_all_fired (dl : JSVal → Nat) (L : Loop) :
    ∃ evs L', run dl L evs = some L' ∧
      ∀ (j : Nat) (f : Entry), L'.queue[j]? = some f → f.fired = true := by
  obtain ⟨M, hM⟩ := exists_due_bound L.queue
  have hdue : ∀ (j : Nat) (f : Entry),
      ({ L with now := L.now + M } : Loop).queue[j]? = some f →
        f.due ≤ ({ L with now := L.now + M } : Loop).now := by
    intro j f hj
    have := hM f (List.mem_iff_getElem?.2 ⟨j, hj⟩)
    show f.due ≤ L.now + M
    omega
  obtain ⟨evs, L2, hrun, hall⟩ := exists_drain dl _ _ rfl hdue
  exact ⟨List.replicate M .tick ++ evs, L2, run_append dl _ _ L _ L2 (run_ticks dl M L) hrun, hall⟩

theorem isRetryable_true_elim (e : JSVal) (h : isRetryable e = .ok (.bool true)) :
    ∃ r hd v, getProp e "response" = .ok r ∧ getProp r "status" = .ok (.num 429) ∧
      getProp r "headers" = .ok hd ∧ getProp hd "retry-after" = .ok v ∧
      toBoolean v = true := by
  cases hr : getProp e "response" with
  | error a => rw [isRetryable_response_error e a hr] at h; cases h
  | ok r =>
    rw [isRetryable_unfold e r hr] at h
    cases hb : toBoolean r
    · simp [hb] at h
    · simp only [hb, if_true] at h
      cases hs : getProp r "status" with
      | error a => simp [hs] at h
      | ok s =>
        simp only [hs] at h
        cases h9 : strictEqNum s 429
        · simp [h9] at h
        · simp only [h9, if_true] at h
          cases hh : getProp r "headers" with
          | error a => simp [hh] at h
          | ok hd =>
            simp only [hh] at h
            cases hv : getProp hd "retry-after" with
            | error a => simp [hv] at h
            | ok v =>
              simp only [hv, Except.ok.injEq, JSVal.bool.injEq] at h
              have h429 : s = .num 429 := (strictEqNum_iff s 429).1 h9
              exact ⟨r, hd, v, rfl, h429 ▸ hs, hh, hv, h⟩

/-! ## Claims about `wait` over time -/

/-- C11 (as stated, refuted): a timer of delay 4 is registered at time 0 and
`wait` is called at time 3 with `retry-after: 2`. The timer was scheduled no
later than the call and has a strictly longer delay, yet at time 4 the host
runs it while the promise of `wait` is still pending; running the timer of
`wait` at that time is not allowed. -/
theorem earlier_timer_runs_before_wait :
    (run delayUnits Loop.start
      [.setTimer (.num 4), .tick, .tick, .tick,
       .callWait (mkError "HTTP 429 Rate Limit Exceeded"
          [("response", .obj [("headers", .obj [("retry-after", .num 2)])])]),
       .tick, .fire 0]).map
        (fun L => (L.queue.map Entry.due, L.queue.map Entry.fired,
          L.promises.map PromiseState.isPending, L.now))
      = some ([4, 5], [true, false], [true], 4) ∧
    (run delayUnits Loop.start
      [.setTimer (.num 4), .tick, .tick, .tick,
       .callWait (mkError "HTTP 429 Rate Limit Exceeded"
          [("response", .obj [("headers", .obj [("retry-after", .num 2)])])]),
       .tick, .fire 1]).isSome = false :=
  ⟨rfl, rfl⟩

/-- C11 (amended): in a timer model where a callback scheduled at time `t`
with numeric delay `d` may run from time `t + d` on and the host runs timers in
the order of these due times, for every error with `retry-after` value `N` the
promise returned by `wait(error)` is never fulfilled earlier than `N` time
units after the call, and it is fulfilled before any timer whose due time is
later than the time of the call plus `N` has run (so before a timer set at the
time of the call with a longer delay, not before every timer set earlier). -/
theorem wait_resolves_after_delay (dl : JSVal → Nat)
    (hmodel : ∀ n : Int, dl (.num n) = n.toNat)
    (pre evs : List Event) (L1 L2 : Loop) (e r hd : JSVal) (N : Int)
    (hpre : run dl Loop.start pre = some L1)
    (hr : getProp e "response" = .ok r) (hh : getProp r "headers" = .ok hd)
    (hv : getProp hd "retry-after" = .ok (.num N))
    (hrun : run dl (callWait dl e L1).2 evs = some L2) :
    (∀ w, L2.promises[(callWait dl e L1).1]? = some (.fulfilled w) →
      (L1.now : Int) + N ≤ L2.now) ∧
    (∀ (j : Nat) (f : Entry), L2.queue[j]? = some f → f.fired = true →
      L1.now + N.toNat < f.due →
      L2.promises[(callWait dl e L1).1]? = some (.fulfilled .undefined)) := by
  have hS : Sound L1 := Sound_run dl pre _ _ Sound_start hpre
  have hT0 := Tracks_callWait dl e r hd (.num N) L1 hS hr hh hv
  have hT := Tracks_run dl _ _ _ evs _ _ hT0 hrun
  rw [(callWait_cases dl e L1).1, hmodel] at *
  constructor
  · intro w hw
    rcases hT.state with ⟨h1, _⟩ | ⟨_, _, h3⟩
    · rw [h1] at hw; cases hw
    · omega
  · exact hT.later

/-- Witness for C11 (amended): the race of the test suite. A timer of delay 4
is set, `wait` is called with `retry-after: 2` at the same time 0, the promise
is fulfilled at time 2 and the other timer runs at time 4. -/
theorem wait_resolves_after_delay_witness :
    (run delayUnits Loop.start
      [.setTimer (.num 4),
       .callWait (mkError "HTTP 429 Rate Limit Exceeded"
          [("response", .obj [("headers", .obj [("retry-after", .num 2)])])]),
       .tick, .tick, .fire 1, .tick, .tick, .fire 0]).map
        (fun L => (L.queue.map Entry.due, L.queue.map Entry.fired,
          L.promises.map PromiseState.isFulfilledUndefined, L.now))
      = some ([4, 2], [true, true], [true], 4) ∧
    (∀ w, [PromiseState.fulfilled .undefined][0]? = some (.fulfilled w) → (0 : Int) + 2 ≤ 4) ∧
    [PromiseState.fulfilled .undefined][0]? = some (.fulfilled .undefined) :=
  ⟨rfl,
   (wait_resolves_after_delay delayUnits (fun _ => rfl)
      [.setTimer (.num 4)] [.tick, .tick, .fire 1, .tick, .tick, .fire 0]
      { promises := [], queue := [Entry.mk none (.num 4) 4 false], now := 0 }
      { promises := [.fulfilled .undefined],
        queue := [Entry.mk none (.num 4) 4 true, Entry.mk (some 0) (.num 2) 2 true],
        now := 4 }
      (mkError "HTTP 429 Rate Limit Exceeded"
        [("response", .obj [("headers", .obj [("retry-after", .num 2)])])])
      (.obj [("headers", .obj [("retry-after", .num 2)])])
      (.obj [("retry-after", .num 2)]) 2 rfl rfl rfl rfl rfl).1,
   (wait_resolves_after_delay delayUnits (fun _ => rfl)
      [.setTimer (.num 4)] [.tick, .tick, .fire 1, .tick, .tick, .fire 0]
      { promises := [], queue := [Entry.mk none (.num 4) 4 false], now := 0 }
      { promises := [.fulfilled .undefined],
        queue := [Entry.mk none (.num 4) 4 true, Entry.mk (some 0) (.num 2) 2 true],
        now := 4 }
      (mkError "HTTP 429 Rate Limit Exceeded"
        [("response", .obj [("headers", .obj [("retry-after", .num 2)])])])
      (.obj [("headers", .obj [("retry-after", .num 2)])])
      (.obj [("retry-after", .num 2)]) 2 rfl rfl rfl rfl rfl).2
      0 (Entry.mk none (.num 4) 4 true) rfl rfl (by decide)⟩

/-- C13: for every error for which `isRetryable(error)` returns `true`, the
read `error.response.headers['retry-after']` inside `wait(error)` is defined
and yields the truthy value `isRetryable` tested; `wait` does not raise, it
returns a pending promise and registers one timer with that value as delay; in
every run the promise is either pending with its timer not yet run, or
fulfilled with `undefined` with its timer run and not allowed to run again, so
it is never rejected; and there is a run of the host in which it is
fulfilled. -/
theorem wait_safe_after_isRetryable (dl : JSVal → Nat) (pre : List Event) (L1 : Loop)
    (e : JSVal) (h : Host)
    (hpre : run dl Loop.start pre = some L1)
    (hret : isRetryable e = .ok (.bool true)) :
    ∃ v, (∃ r hd, getProp e "response" = .ok r ∧ getProp r "headers" = .ok hd ∧
          getProp hd "retry-after" = .ok v) ∧
      toBoolean v = true ∧
      wait e h =
        (h.promises.length,
          { promises := h.promises ++ [.pending],
            timers := h.timers ++ [{ resolves := h.promises.length, delay := v }] }) ∧
      (callWait dl e L1).1 = L1.promises.length ∧
      (∀ evs L2, run dl (callWait dl e L1).2 evs = some L2 →
        (L2.promises[L1.promises.length]? = some .pending ∧
          ∃ fk, L2.queue[L1.queue.length]? = some fk ∧ fk.fired = false) ∨
        (L2.promises[L1.promises.length]? = some (.fulfilled .undefined) ∧
          canFire L2 L1.queue.length = false)) ∧
      (∃ evs L2, run dl (callWait dl e L1).2 evs = some L2 ∧
        L2.promises[L1.promises.length]? = some (.fulfilled .undefined)) := by
  obtain ⟨r, hd, v, hr, _, hh, hv, ht⟩ := isRetryable_true_elim e hret
  have hS : Sound L1 := Sound_run dl pre _ _ Sound_start hpre
  have hT0 := Tracks_callWait dl e r hd v L1 hS hr hh hv
  refine ⟨v, ⟨r, hd, hr, hh, hv⟩, ht, by simp [wait, hr, hh, hv],
    (callWait_cases dl e L1).1, ?_, ?_⟩
  · intro evs L2 hrun
    have hT := Tracks_run dl _ _ _ evs _ _ hT0 hrun
    obtain ⟨fk, hk, _, _⟩ := hT.entry
    rcases hT.state with ⟨h1, h2⟩ | ⟨h1, h2, _⟩
    · exact Or.inl ⟨h1, fk, hk, h2 fk hk⟩
    · refine Or.inr ⟨h1, ?_⟩
      cases hc : canFire L2 L1.queue.length
      · rfl
      · obtain ⟨e0, h0, hunf, _, _⟩ := (canFire_iff L2 _).1 hc
        rw [h2 e0 h0] at hunf
        cases hunf
  · obtain ⟨evs, L2, hrun, hall⟩ := exists_run_all_fired dl (callWait dl e L1).2
    have hT := Tracks_run dl _ _ _ evs _ _ hT0 hrun
    refine ⟨evs, L2, hrun, ?_⟩
    obtain ⟨fk, hk, _, _⟩ := hT.entry
    rcases hT.state with ⟨_, h2⟩ | ⟨h1, _⟩
    · have := hall _ fk hk
      rw [h2 fk hk] at this
      cases this
    · exact h1

/-- Witness for C13: the retryable error of the test suite (status 429,
`retry-after: 25`) on a fresh host. -/
theorem wait_safe_after_isRetryable_witness :
    isRetryable (mkError "HTTP 429 Rate Limit Exceeded"
      [("response", .obj [("status", .num 429),
        ("headers", .obj [("retry-after", .num 25)])])]) = .ok (.bool true) ∧
    ∃ evs L2, run delayUnits (callWait delayUnits (mkError "HTTP 429 Rate Limit Exceeded"
      [("response", .obj [("status", .num 429),
        ("headers", .obj [("retry-after", .num 25)])])]) Loop.start).2 evs = some L2 ∧
      L2.promises[Loop.start.promises.length]? = some (.fulfilled .undefined) :=
  ⟨rfl,
   match wait_safe_after_isRetryable delayUnits [] Loop.start
      (mkError "HTTP 429 Rate Limit Exceeded"
        [("response", .obj [("status", .num 429),
          ("headers", .obj [("retry-after", .num 25)])])])
      { promises := [], timers := [] } rfl rfl with
   | ⟨_, _, _, _, _, _, hlive⟩ => hlive⟩

/-- C10 (amended): `wait` waits the number of host time units given by the
`Retry-After` header, not that number of seconds. For every error whose
`retry-after` value is the number `N`, the only timer `wait` registers has the
delay `N` itself, which is not 1000 × `N` unless `N` is 0; and on a host with no
timer left to run, where a numeric delay `d` stands for `d` time units, the
promise is fulfilled `N` time units after the call. -/
theorem wait_delay_in_host_units (dl : JSVal → Nat)
    (hmodel : ∀ n : Int, dl (.num n) = n.toNat)
    (e r hd : JSVal) (N : Int) (h : Host) (L1 : Loop)
    (hr : getProp e "response" = .ok r) (hh : getProp r "headers" = .ok hd)
    (hv : getProp hd "retry-after" = .ok (.num N))
    (hidle : ∀ (j : Nat) (f : Entry), L1.queue[j]? = some f → f.fired = true) :
    (wait e h).2.timers.map Timer.delay = h.timers.map Timer.delay ++ [.num N] ∧
    (N ≠ 0 →
      (wait e h).2.timers.map Timer.delay ≠ h.timers.map Timer.delay ++ [.num (1000 * N)]) ∧
    ∃ L2, run dl (callWait dl e L1).2
        (List.replicate N.toNat .tick ++ [.fire L1.queue.length]) = some L2 ∧
      L2.now = L1.now + N.toNat ∧
      L2.promises[L1.promises.length]? = some (.fulfilled .undefined) := by
  have hw : (wait e h).2.timers.map Timer.delay = h.timers.map Timer.delay ++ [.num N] := by
    simp [wait, hr, hh, hv]
  refine ⟨hw, ?_, ?_⟩
  · intro hN hcontra
    rw [hw] at hcontra
    have := List.append_cancel_left hcontra
    simp only [List.cons.injEq, JSVal.num.injEq, and_true] at this
    omega
  · have hcall := callWait_ok dl e r hd (.num N) L1 hr hh hv
    rw [hcall, hmodel]
    dsimp only
    have hq : (L1.queue ++ [Entry.mk (some L1.promises.length) (.num N)
        (L1.now + N.toNat) false])[L1.queue.length]?
        = some (Entry.mk (some L1.promises.length) (.num N) (L1.now + N.toNat) false) := by
      simp
    have hfire : canFire
        { promises := L1.promises ++ [.pending],
          queue := L1.queue ++ [Entry.mk (some L1.promises.length) (.num N)
            (L1.now + N.toNat) false],
          now := L1.now + N.toNat } L1.queue.length = true := by
      refine (canFire_iff _ _).2 ⟨_, hq, rfl, Nat.le_refl _, ?_⟩
      intro j f hj
      rcases getElem?_snoc _ _ _ _ hj with hj | ⟨hjk, hf⟩
      · exact Or.inl (hidle j f hj)
      · right; right
        subst hf
        exact ⟨rfl, by omega⟩
    refine ⟨fire
        { promises := L1.promises ++ [.pending],
          queue := L1.queue ++ [Entry.mk (some L1.promises.length) (.num N)
            (L1.now + N.toNat) false],
          now := L1.now + N.toNat } L1.queue.length, ?_, ?_, ?_⟩
    · refine run_append dl _ _ _ _ _ (run_ticks dl N.toNat _) ?_
      simp only [run, step, hfire, if_true]
    · exact (fire_queue _ _ _ hq).2
    · rw [fire_spec _ _ _ hq]
      dsimp only
      exact settle_pending _ _ _ (by simp)

/-- Witness for C10 (amended): `retry-after: 2` on a fresh host; the promise
is fulfilled at time 2. -/
theorem wait_delay_in_host_units_witness :
    (wait (mkError "HTTP 429 Rate Limit Exceeded"
        [("response", .obj [("headers", .obj [("retry-after", .num 2)])])])
        { promises := [], timers := [] }).2.timers.map Timer.delay = [.num 2] ∧
    ∃ L2, run delayUnits (callWait delayUnits (mkError "HTTP 429 Rate Limit Exceeded"
        [("response", .obj [("headers", .obj [("retry-after", .num 2)])])]) Loop.start).2
        [.tick, .tick, .fire 0] = some L2 ∧
      L2.now = 2 ∧ L2.promises[0]? = some (.fulfilled .undefined) :=
  ⟨(wait_delay_in_host_units delayUnits (fun _ => rfl)
      (mkError "HTTP 429 Rate Limit Exceeded"
        [("response", .obj [("headers", .obj [("retry-after", .num 2)])])])
      (.obj [("headers", .obj [("retry-after", .num 2)])])
      (.obj [("retry-after", .num 2)]) 2 { promises := [], timers := [] } Loop.start
      rfl rfl rfl (fun j f hj => by simp [Loop.start] at hj)).1,
   (wait_delay_in_host_units delayUnits (fun _ => rfl)
      (mkError "HTTP 429 Rate Limit Exceeded"
        [("response", .obj [("headers", .obj [("retry-after", .num 2)])])])
      (.obj [("headers", .obj [("retry-after", .num 2)])])
      (.obj [("retry-after", .num 2)]) 2 { promises := [], timers := [] } Loop.start
      rfl rfl rfl (fun j f hj => by simp [Loop.start] at hj)).2.2⟩

end AxiosRetry
